import Mathlib

/-!
Verification of the ffsvm SVM inference engine against its design
specification.  The numeric code (src/svm/kernel/rbf.rs) is embedded over
the reals: an f32 SIMD lane vector becomes a list of reals of lane width
`w`, a packed support-vector row becomes a list of such lane chunks, and
the dense matrix becomes a list of rows.  The FFI adapter (src/ffi.rs) is
embedded as pure functions over an explicit `Context` state, with null
pointers modelled by `Option`.
-/

namespace FfSvm

/-! ## Dense RBF kernel (src/svm/kernel/rbf.rs, impl KernelDense for Rbf) -/

/-- The RBF kernel parameter record, from `pub struct Rbf { pub gamma: f32 }`. -/
structure Rbf where
  gamma : ℝ

/-- One SIMD step of the inner loop body: `(*a - *b) * (*a - *b)` computed
lane-by-lane on two lane chunks. -/
def laneSq (a b : List ℝ) : List ℝ :=
  List.zipWith (fun x y => (x - y) * (x - y)) a b

/-- Lane-wise `+=` of the accumulator: `sum += ...` on `f32s` values. -/
def laneAdd (u v : List ℝ) : List ℝ :=
  List.zipWith (fun x y => x + y) u v

/-- The accumulator loop of `KernelDense::compute` for one row: starting from
`f32s::splat(0.0)` (a lane chunk of `w` zeros), fold over the zipped lane
chunks of the support vector and the feature vector, adding the squared
lane-wise difference each step. -/
def rbfRowSum (w : ℕ) (sv feature : List (List ℝ)) : List ℝ :=
  (List.zip sv feature).foldl (fun acc p => laneAdd acc (laneSq p.1 p.2))
    (List.replicate w 0)

/-- One output slot of the dense RBF kernel:
`output[i] = f64::from((-self.gamma * sum.sum()).exp())`, with `sum.sum()`
the horizontal sum of the lane accumulator. -/
noncomputable def rbfRow (gamma : ℝ) (w : ℕ) (sv feature : List (List ℝ)) : ℝ :=
  Real.exp (-gamma * (rbfRowSum w sv feature).sum)

/-- Method `KernelDense::compute`: for every row of the packed support-vector matrix,
produce the RBF kernel value against the feature vector. -/
noncomputable def Rbf.computeDense (k : Rbf) (w : ℕ)
    (vectors : List (List (List ℝ))) (feature : List (List ℝ)) : List ℝ :=
  vectors.map (fun sv => rbfRow k.gamma w sv feature)

/-- The squared euclidean distance `||u - v||^2` of two flat vectors, the
reference quantity of the spec: elementwise difference squared, summed. -/
def sqDist (u v : List ℝ) : ℝ :=
  (List.zipWith (fun x y => (x - y) * (x - y)) u v).sum

theorem laneSq_length (a b : List ℝ) : (laneSq a b).length = min a.length b.length := by
  simp [laneSq]

theorem laneAdd_length (u v : List ℝ) : (laneAdd u v).length = min u.length v.length := by
  simp [laneAdd]

theorem laneAdd_sum (u v : List ℝ) (h : u.length = v.length) :
    (laneAdd u v).sum = u.sum + v.sum := by
  induction u generalizing v with
  | nil =>
    cases v with
    | nil => simp [laneAdd]
    | cons y ys => simp at h
  | cons x xs ih =>
    cases v with
    | nil => simp at h
    | cons y ys =>
      simp only [laneAdd, List.zipWith_cons_cons, List.sum_cons] at *
      rw [ih ys (by simpa using h)]
      ring

/-- Folding the lane accumulator and then horizontally summing equals the sum
of the horizontal sums of each squared-difference chunk. -/
theorem rbfRowSum_foldl_sum (w : ℕ) (pairs : List (List ℝ × List ℝ)) (acc : List ℝ)
    (hacc : acc.length = w)
    (hp : ∀ p ∈ pairs, p.1.length = w ∧ p.2.length = w) :
    (pairs.foldl (fun acc p => laneAdd acc (laneSq p.1 p.2)) acc).sum
      = acc.sum + (pairs.map (fun p => (laneSq p.1 p.2).sum)).sum := by
  induction pairs generalizing acc with
  | nil => simp
  | cons p ps ih =>
    have hpl := hp p (List.mem_cons_self p ps)
    have hlen : (laneAdd acc (laneSq p.1 p.2)).length = w := by
      rw [laneAdd_length, laneSq_length, hacc, hpl.1, hpl.2]
      simp
    simp only [List.foldl_cons, List.map_cons, List.sum_cons]
    rw [ih _ hlen (fun q hq => hp q (List.mem_cons_of_mem p hq))]
    rw [laneAdd_sum acc (laneSq p.1 p.2) (by rw [hacc, laneSq_length, hpl.1, hpl.2]; simp)]
    ring

theorem sqDist_nil_left (v : List ℝ) : sqDist [] v = 0 := by
  simp [sqDist]

theorem sqDist_nil_right (u : List ℝ) : sqDist u [] = 0 := by
  cases u <;> simp [sqDist]

theorem sqDist_append (a b u v : List ℝ) (h : a.length = b.length) :
    sqDist (a ++ u) (b ++ v) = sqDist a b + sqDist u v := by
  simp [sqDist, List.zipWith_append _ _ _ _ _ h]

/-- The horizontal sum of the per-chunk squared differences over zipped chunk
lists equals the squared distance of the flattened vectors, provided every
chunk has the lane width. -/
theorem zip_laneSq_sum_eq (w : ℕ) (sv feature : List (List ℝ))
    (hs : ∀ c ∈ sv, c.length = w) (hf : ∀ c ∈ feature, c.length = w) :
    ((List.zip sv feature).map (fun p => (laneSq p.1 p.2).sum)).sum
      = sqDist sv.flatten feature.flatten := by
  induction sv generalizing feature with
  | nil => simp [sqDist_nil_left]
  | cons a svs ih =>
    cases feature with
    | nil => simp [sqDist_nil_right]
    | cons b fs =>
      have ha : a.length = w := hs a (List.mem_cons_self a svs)
      have hb : b.length = w := hf b (List.mem_cons_self b fs)
      simp only [List.zip_cons_cons, List.map_cons, List.sum_cons, List.flatten_cons]
      rw [sqDist_append a b _ _ (by rw [ha, hb]),
        ih fs (fun c hc => hs c (List.mem_cons_of_mem a hc))
          (fun c hc => hf c (List.mem_cons_of_mem b hc))]
      rfl

/-- The accumulated lane sum of one row equals the squared distance of the
flattened operands. -/
theorem rbfRowSum_eq_sqDist (w : ℕ) (sv feature : List (List ℝ))
    (hs : ∀ c ∈ sv, c.length = w) (hf : ∀ c ∈ feature, c.length = w) :
    (rbfRowSum w sv feature).sum = sqDist sv.flatten feature.flatten := by
  rw [rbfRowSum, rbfRowSum_foldl_sum w _ _ (by simp)]
  · rw [List.sum_replicate]
    simp only [smul_zero, zero_add]
    exact zip_laneSq_sum_eq w sv feature hs hf
  · intro p hp
    rcases List.of_mem_zip hp with ⟨h1, h2⟩
    exact ⟨hs p.1 h1, hf p.2 h2⟩

theorem sqDist_take_drop (u v : List ℝ) (n : ℕ) (h : u.length = v.length) :
    sqDist u v = sqDist (u.take n) (v.take n) + sqDist (u.drop n) (v.drop n) := by
  conv_lhs => rw [← List.take_append_drop n u, ← List.take_append_drop n v]
  exact sqDist_append _ _ _ _ (by simp [h])

theorem sqDist_eq_zero_of_zeros (u v : List ℝ)
    (hu : ∀ x ∈ u, x = 0) (hv : ∀ y ∈ v, y = 0) : sqDist u v = 0 := by
  induction u generalizing v with
  | nil => exact sqDist_nil_left v
  | cons x xs ih =>
    cases v with
    | nil => exact sqDist_nil_right _
    | cons y ys =>
      simp only [sqDist, List.zipWith_cons_cons, List.sum_cons] at *
      rw [hu x (List.mem_cons_self x xs), hv y (List.mem_cons_self y ys),
        ih ys (fun a ha => hu a (List.mem_cons_of_mem x ha))
          (fun a ha => hv a (List.mem_cons_of_mem y ha))]
      ring

theorem sqDist_comm (u v : List ℝ) : sqDist u v = sqDist v u := by
  induction u generalizing v with
  | nil => rw [sqDist_nil_left, sqDist_nil_right]
  | cons x xs ih =>
    cases v with
    | nil => rw [sqDist_nil_left, sqDist_nil_right]
    | cons y ys =>
      simp only [sqDist, List.zipWith_cons_cons, List.sum_cons] at *
      rw [ih ys]
      ring_nf

/-- C1: for every row i of the packed support-vector matrix, the dense RBF
kernel computes out[i] = exp(-gamma * ||sv_i - feature||^2): the lane-wise
squared differences are accumulated, horizontally summed, multiplied by
-gamma and exponentiated. -/
theorem rbf_dense_compute_writes_kernel (k : Rbf) (w : ℕ)
    (vectors : List (List (List ℝ))) (feature : List (List ℝ))
    (hv : ∀ row ∈ vectors, ∀ c ∈ row, c.length = w)
    (hf : ∀ c ∈ feature, c.length = w)
    (i : ℕ) (hi : i < vectors.length) :
    (k.computeDense w vectors feature).getD i 0
      = Real.exp (-k.gamma * sqDist (vectors.getD i []).flatten feature.flatten) := by
  have hlen : i < (k.computeDense w vectors feature).length := by
    simpa [Rbf.computeDense] using hi
  rw [List.getD_eq_getElem _ _ hlen, List.getD_eq_getElem _ _ hi]
  simp only [Rbf.computeDense, List.getElem_map, rbfRow]
  rw [rbfRowSum_eq_sqDist w _ _ (hv _ (List.getElem_mem hi)) hf]

/-- Closed instance of the C1 theorem at a concrete model and feature. -/
theorem rbf_dense_compute_writes_kernel_w :
    ((⟨1⟩ : Rbf).computeDense 2 [[[1, 2]]] [[0, 0]]).getD 0 0
      = Real.exp (-(⟨1⟩ : Rbf).gamma
          * sqDist (([[[1, 2]]] : List (List (List ℝ))).getD 0 []).flatten
              ([[0, 0]] : List (List ℝ)).flatten) :=
  rbf_dense_compute_writes_kernel ⟨1⟩ 2 [[[1, 2]]] [[0, 0]]
    (by simp) (by simp) 0 (by simp)

/-- C4: when the flattened row and the flattened feature agree in length and
are zero beyond position n, the dense RBF output equals the kernel value
taken over the first n attributes only: padding lanes contribute nothing. -/
theorem rbf_dense_padding_zero (k : Rbf) (w n : ℕ)
    (vectors : List (List (List ℝ))) (feature : List (List ℝ))
    (hv : ∀ row ∈ vectors, ∀ c ∈ row, c.length = w)
    (hf : ∀ c ∈ feature, c.length = w)
    (hlen : ∀ row ∈ vectors, row.flatten.length = feature.flatten.length)
    (hpv : ∀ row ∈ vectors, ∀ x ∈ row.flatten.drop n, x = 0)
    (hpf : ∀ x ∈ feature.flatten.drop n, x = 0)
    (i : ℕ) (hi : i < vectors.length) :
    (k.computeDense w vectors feature).getD i 0
      = Real.exp (-k.gamma
          * sqDist ((vectors.getD i []).flatten.take n) (feature.flatten.take n)) := by
  have hlen2 : i < (k.computeDense w vectors feature).length := by
    simpa [Rbf.computeDense] using hi
  rw [List.getD_eq_getElem _ _ hlen2, List.getD_eq_getElem _ _ hi]
  simp only [Rbf.computeDense, List.getElem_map, rbfRow]
  have hmem : vectors[i] ∈ vectors := List.getElem_mem hi
  rw [rbfRowSum_eq_sqDist w _ _ (hv _ hmem) hf,
    sqDist_take_drop _ _ n (hlen _ hmem),
    sqDist_eq_zero_of_zeros _ _ (hpv _ hmem) hpf, add_zero]

/-- Closed instance of the C4 theorem: one padding slot, zero on both sides. -/
theorem rbf_dense_padding_zero_w :
    ((⟨1⟩ : Rbf).computeDense 2 [[[1, 0]]] [[2, 0]]).getD 0 0
      = Real.exp (-(⟨1⟩ : Rbf).gamma
          * sqDist ((([[[1, 0]]] : List (List (List ℝ))).getD 0 []).flatten.take 1)
              ((([[2, 0]] : List (List ℝ)).flatten).take 1)) :=
  rbf_dense_padding_zero ⟨1⟩ 2 1 [[[1, 0]]] [[2, 0]]
    (by simp) (by simp) (by simp) (by simp) (by simp) 0 (by simp)

/-- C5: the dense RBF kernel is symmetric; exchanging the roles of the
support-vector row and the feature vector yields exactly the same value
(hence certainly within 1 ulp). -/
theorem rbf_dense_symmetric (k : Rbf) (w : ℕ) (u v : List (List ℝ))
    (hu : ∀ c ∈ u, c.length = w) (hv : ∀ c ∈ v, c.length = w)
    (_hlen : u.length = v.length) :
    k.computeDense w [u] v = k.computeDense w [v] u := by
  simp only [Rbf.computeDense, List.map_cons, List.map_nil, rbfRow]
  rw [rbfRowSum_eq_sqDist w u v hu hv, rbfRowSum_eq_sqDist w v u hv hu,
    sqDist_comm]

/-- Closed instance of the C5 symmetry theorem. -/
theorem rbf_dense_symmetric_w :
    (⟨1⟩ : Rbf).computeDense 2 [[[1, 2]]] [[0, 3]]
      = (⟨1⟩ : Rbf).computeDense 2 [[[0, 3]]] [[1, 2]] :=
  rbf_dense_symmetric ⟨1⟩ 2 [[1, 2]] [[0, 3]] (by simp) (by simp) (by simp)

/-! ## Sparse RBF kernel (src/svm/kernel/rbf.rs, impl KernelSparse for Rbf) -/

/-- The merge loop of `KernelSparse::compute` for one support-vector row: the
two operands are streams of (index, value) pairs; equal indices contribute
the squared difference and both streams advance; on unequal indices the
stream with the smaller index advances WITHOUT touching the accumulator; as
soon as either stream is exhausted the loop breaks. -/
def sparseSumSq : List (ℕ × ℝ) → List (ℕ × ℝ) → ℝ
  | (ia, x) :: xs, (ib, y) :: ys =>
    if ia = ib then (x - y) * (x - y) + sparseSumSq xs ys
    else if ia < ib then sparseSumSq xs ((ib, y) :: ys)
    else sparseSumSq ((ia, x) :: xs) ys
  | _, _ => 0
termination_by a b => a.length + b.length

/-- Method `KernelSparse::compute`: each output slot is exp(-gamma * accumulated sum)
for the corresponding row. -/
noncomputable def Rbf.computeSparse (k : Rbf)
    (vectors : List (List (ℕ × ℝ))) (feature : List (ℕ × ℝ)) : List ℝ :=
  vectors.map (fun sv => Real.exp (-k.gamma * sparseSumSq sv feature))

/-- The accumulator the specification (and claim C2) describes, written from
the spec words: merge the two strictly-increasing index streams and treat an
index missing on either side as if the value on that side were zero, so an
unmatched pair (i, x) contributes x^2. -/
def specSparseSumSq : List (ℕ × ℝ) → List (ℕ × ℝ) → ℝ
  | (ia, x) :: xs, (ib, y) :: ys =>
    if ia = ib then (x - y) * (x - y) + specSparseSumSq xs ys
    else if ia < ib then x * x + specSparseSumSq xs ((ib, y) :: ys)
    else y * y + specSparseSumSq ((ia, x) :: xs) ys
  | (_, x) :: xs, [] => x * x + specSparseSumSq xs []
  | [], (_, y) :: ys => y * y + specSparseSumSq [] ys
  | [], [] => 0
termination_by a b => a.length + b.length

/-- C2 divergence: on the row [(0, 1)] against the empty feature vector (both
strictly increasing), the sparse code outputs exp(0) = 1 because the
unmatched index 0 is skipped, while the value demanded by the claim,
exp(-gamma * 1^2) with gamma = 1, is not 1. -/
theorem rbf_sparse_skips_unmatched :
    (⟨1⟩ : Rbf).computeSparse [[(0, 1)]] [] = [1]
    ∧ Real.exp (-(1 : ℝ) * specSparseSumSq [(0, (1 : ℝ))] []) ≠ 1 := by
  constructor
  · simp [Rbf.computeSparse, sparseSumSq]
  · have h1 : specSparseSumSq [(0, (1 : ℝ))] [] = 1 := by
      simp [specSparseSumSq]
    rw [h1]
    simp only [mul_one, Real.exp_eq_one_iff]
    norm_num

/-! ## Kernel construction from a parsed model (src/svm/kernel/rbf.rs,
impl TryFrom for Rbf) -/

/-- The error type of kernel construction (crate::errors::Error); only the
variant used by the RBF constructor is needed. -/
inductive Error where
  | NoGamma
deriving DecidableEq

/-- Modelled from the spec: the parsed model header carries an optional gamma
hyperparameter (the parser component is not under src; only
`header.gamma` is read by the code verified here). -/
structure Header where
  gamma : Option ℝ

/-- Modelled from the spec: the neutral parsed representation of a model
file, of which only the header is consumed by the RBF constructor. -/
structure ModelFile where
  header : Header

/-- Impl `TryFrom for Rbf`: `raw_model.header.gamma.ok_or(Error::NoGamma)?`
then `Ok(Rbf { gamma })`. -/
def Rbf.tryFrom (m : ModelFile) : Except Error Rbf :=
  match m.header.gamma with
  | none => Except.error Error.NoGamma
  | some g => Except.ok ⟨g⟩

/-- C6: constructing the RBF kernel fails with NoGamma exactly when the
header has no gamma; with gamma present it succeeds and keeps that gamma
unchanged. -/
theorem rbf_try_from_gamma (m : ModelFile) :
    (Rbf.tryFrom m = Except.error Error.NoGamma ↔ m.header.gamma = none)
    ∧ ∀ g, m.header.gamma = some g → Rbf.tryFrom m = Except.ok ⟨g⟩ := by
  constructor
  · cases h : m.header.gamma <;> simp [Rbf.tryFrom, h]
  · intro g hg
    simp [Rbf.tryFrom, hg]

/-- Closed instance of the C6 theorem at a present and an absent gamma. -/
theorem rbf_try_from_gamma_w :
    Rbf.tryFrom ⟨⟨some 2⟩⟩ = Except.ok ⟨2⟩
    ∧ Rbf.tryFrom ⟨⟨none⟩⟩ = Except.error Error.NoGamma :=
  ⟨(rbf_try_from_gamma ⟨⟨some 2⟩⟩).2 2 rfl,
   (rbf_try_from_gamma ⟨⟨none⟩⟩).1.mpr rfl⟩

/-! ## SVM class lookups (src/svm/mod.rs) -/

/-- A class record (class.rs is not under src); the code verified here reads
only its externally visible label. -/
structure Class where
  label : ℕ

/-- The SVM aggregate from src/svm/mod.rs.  Of its fields, the claims only
reference `num_attributes` (read by the FFI adapter) and `classes`; the
remaining numeric payload (num_total_sv, rho, probabilities, kernel) is
never read by the verified code paths and is omitted. -/
structure SVM where
  num_attributes : ℕ
  classes : List Class

/-- The search loop of `SVM::class_index_for_label`: walk the classes with
their enumeration index, skip on label mismatch, return the first index
whose class carries the label. -/
def findLabelIdx (label : ℕ) : List Class → ℕ → Option ℕ
  | [], _ => none
  | c :: rest, i => if c.label ≠ label then findLabelIdx label rest (i + 1) else some i

/-- Method `SVM::class_index_for_label`. -/
def SVM.class_index_for_label (s : SVM) (label : ℕ) : Option ℕ :=
  findLabelIdx label s.classes 0

/-- Method `SVM::class_label_for_index`:
`if index >= self.classes.len() { None } else { Some(self.classes[index].label) }`. -/
def SVM.class_label_for_index (s : SVM) (index : ℕ) : Option ℕ :=
  if s.classes.length ≤ index then none
  else some ((s.classes.getD index ⟨0⟩).label)

theorem findLabelIdx_eq_some (label : ℕ) (cs : List Class) (k i : ℕ) :
    findLabelIdx label cs k = some i
      ↔ ∃ j, i = k + j ∧ j < cs.length ∧ (cs.getD j ⟨0⟩).label = label
          ∧ ∀ m < j, (cs.getD m ⟨0⟩).label ≠ label := by
  induction cs generalizing k with
  | nil => simp [findLabelIdx]
  | cons c rest ih =>
    by_cases hc : c.label = label
    · have hstep : findLabelIdx label (c :: rest) k = some k := by
        simp [findLabelIdx, hc]
      rw [hstep]
      constructor
      · intro h
        rw [Option.some_inj] at h
        subst h
        exact ⟨0, by omega, by simp, by simpa using hc, by omega⟩
      · rintro ⟨j, rfl, _, hlab, hmin⟩
        cases j with
        | zero => simp
        | succ j2 =>
          exact absurd
            (show ((c :: rest).getD 0 ⟨0⟩).label = label by simpa using hc)
            (hmin 0 (Nat.succ_pos j2))
    · have hstep : findLabelIdx label (c :: rest) k = findLabelIdx label rest (k + 1) := by
        simp [findLabelIdx, hc]
      rw [hstep, ih (k + 1)]
      constructor
      · rintro ⟨j, rfl, hj, hlab, hmin⟩
        refine ⟨j + 1, by omega, by simpa using hj, by simpa using hlab, ?_⟩
        intro m hm
        cases m with
        | zero => simpa [List.getD_cons_zero] using hc
        | succ m2 => simpa using hmin m2 (by omega)
      · rintro ⟨j, rfl, hj, hlab, hmin⟩
        cases j with
        | zero => exact absurd (by simpa [List.getD_cons_zero] using hlab) hc
        | succ j2 =>
          refine ⟨j2, by omega, by simpa using hj, by simpa using hlab, ?_⟩
          intro m hm
          simpa using hmin (m + 1) (by omega)

theorem findLabelIdx_eq_none (label : ℕ) (cs : List Class) (k : ℕ) :
    findLabelIdx label cs k = none ↔ ∀ c ∈ cs, c.label ≠ label := by
  induction cs generalizing k with
  | nil => simp [findLabelIdx]
  | cons c rest ih =>
    by_cases hc : c.label = label
    · simp [findLabelIdx, hc]
    · simp [findLabelIdx, hc, ih (k + 1)]

/-- C10: class_label_for_index is Some exactly below the class count;
class_index_for_label returns the smallest index carrying the label and
None when the label is absent; with pairwise distinct labels the two
functions are inverse on valid indices. -/
theorem svm_class_lookup_spec (s : SVM) :
    (∀ i, (s.class_label_for_index i).isSome ↔ i < s.classes.length)
    ∧ (∀ l i, s.class_index_for_label l = some i ↔
        (i < s.classes.length ∧ (s.classes.getD i ⟨0⟩).label = l
          ∧ ∀ j < i, (s.classes.getD j ⟨0⟩).label ≠ l))
    ∧ (∀ l, s.class_index_for_label l = none ↔ ∀ c ∈ s.classes, c.label ≠ l)
    ∧ (List.Pairwise (fun a b => a.label ≠ b.label) s.classes →
        ∀ i lab, s.class_label_for_index i = some lab →
          s.class_index_for_label lab = some i) := by
  refine ⟨?_, ?_, ?_, ?_⟩
  · intro i
    by_cases h : s.classes.length ≤ i
    · simp only [SVM.class_label_for_index, if_pos h, Option.isSome_none,
        Bool.false_eq_true, false_iff]
      omega
    · simp only [SVM.class_label_for_index, if_neg h, Option.isSome_some, true_iff]
      omega
  · intro l i
    rw [SVM.class_index_for_label, findLabelIdx_eq_some]
    constructor
    · rintro ⟨j, rfl, hj, hlab, hmin⟩
      exact ⟨by omega, by simpa using hlab, fun m hm => by simpa using hmin m (by omega)⟩
    · rintro ⟨hi, hlab, hmin⟩
      exact ⟨i, by omega, hi, hlab, hmin⟩
  · intro l
    rw [SVM.class_index_for_label, findLabelIdx_eq_none]
  · intro hdist i lab hlab
    rw [SVM.class_label_for_index] at hlab
    by_cases h : s.classes.length ≤ i
    · simp [h] at hlab
    · rw [if_neg h, Option.some_inj] at hlab
      rw [SVM.class_index_for_label, findLabelIdx_eq_some]
      refine ⟨i, by omega, by omega, hlab, ?_⟩
      intro m hm hcontra
      have hi : i < s.classes.length := by omega
      have hmlt : m < s.classes.length := by omega
      have hne := (List.pairwise_iff_getElem.mp hdist) m i hmlt hi hm
      rw [List.getD_eq_getElem _ _ hmlt] at hcontra
      rw [List.getD_eq_getElem _ _ hi] at hlab
      exact hne (by rw [hcontra, hlab])

/-- Closed instance of the C10 theorem: the roundtrip on a two-class model
with distinct labels 5 and 7. -/
theorem svm_class_lookup_spec_w :
    SVM.class_index_for_label ⟨4, [⟨5⟩, ⟨7⟩]⟩ 7 = some 1 :=
  (svm_class_lookup_spec ⟨4, [⟨5⟩, ⟨7⟩]⟩).2.2.2 (by decide) 1 7 rfl

/-! ## FFI adapter (src/ffi.rs) -/

/-- Error code `Errors::Ok as i32`. -/
def Errors.Ok : Int := 0

/-- Error code `Errors::NullPointerPassed as i32`. -/
def Errors.NullPointerPassed : Int := -1

/-- Error code `Errors::NoValidUTF8 as i32`. -/
def Errors.NoValidUTF8 : Int := -2

/-- Error code `Errors::ModelParseError as i32`. -/
def Errors.ModelParseError : Int := -20

/-- Error code `Errors::SVMCreationError as i32`. -/
def Errors.SVMCreationError : Int := -30

/-- Error code `Errors::SVMNoModel as i32`. -/
def Errors.SVMNoModel : Int := -31

/-- Error code `Errors::SVMModelAlreadyLoaded as i32`. -/
def Errors.SVMModelAlreadyLoaded : Int := -32

/-- Error code `Errors::ProblemPoolTooSmall as i32`. -/
def Errors.ProblemPoolTooSmall : Int := -40

/-- Error code `Errors::ProblemLengthNotMultipleOfAttributes as i32`. -/
def Errors.ProblemLengthNotMultipleOfAttributes : Int := -41

/-- Error code `Errors::LabelLengthDoesNotEqualProblems as i32`. -/
def Errors.LabelLengthDoesNotEqualProblems : Int := -42

/-- Modelled from the spec: a per-query Problem holds a lane-padded feature
buffer and the predicted label output slot (problem.rs is not under src; the
FFI adapter only writes `features[p]` and reads `label`). -/
structure CProblem where
  features : List ℝ
  label : ℕ

/-- The FFI context `pub struct Context` from src/ffi.rs, with null pointers
of the C surface modelled as `Option` at the call sites. -/
structure Context where
  max_problems : ℕ
  model : Option SVM
  problems : List CProblem

/-- The feature-copy loop of `ffsvm_predict_values`: for each problem index
below the number of problems, overwrite the first `d` entries of that
problem's feature buffer with the corresponding block of the caller's
feature slice, leaving the padding tail untouched. -/
def writeFeatures (d np : ℕ) (fs : List ℝ) (probs : List CProblem) : List CProblem :=
  (List.range probs.length).map fun i =>
    if i < np then
      let p := probs.getD i ⟨[], 0⟩
      { p with features := (fs.drop (i * d)).take d ++ p.features.drop d }
    else probs.getD i ⟨[], 0⟩

/-- Modelled from the spec: `svm.predict_values(&mut problems[0..np])`
(csvm.rs is not under src) sets each problem's label to the label the SVM
predicts for its feature buffer; by the spec's padding rule the prediction
reads only the first num_attributes entries.  The prediction itself is the
abstract function `svmPredict`. -/
def predictSlice (svmPredict : List ℝ → ℕ) (d np : ℕ)
    (probs : List CProblem) : List CProblem :=
  (List.range probs.length).map fun i =>
    if i < np then
      let p := probs.getD i ⟨[], 0⟩
      { p with label := svmPredict (p.features.take d) }
    else probs.getD i ⟨[], 0⟩

/-- The problem pool after the copy loop and the predict call of
`ffsvm_predict_values`: features of the first np problems overwritten with
their blocks, then labels of the first np problems predicted. -/
def problemsAfter (svmPredict : List ℝ → ℕ) (d np : ℕ) (fs : List ℝ)
    (probs : List CProblem) : List CProblem :=
  predictSlice svmPredict d np (writeFeatures d np fs probs)

/-- The body of `ffsvm_predict_values` once the null checks passed and a
model is loaded: the three shape checks in source order (-41, -40, -42),
then copy, predict, and store the first np labels. -/
def predictStep (svmPredict : SVM → List ℝ → ℕ) (svm : SVM) (c : Context)
    (fs : List ℝ) (ls : List ℕ) : Int × Option Context × Option (List ℕ) :=
  if fs.length % svm.num_attributes ≠ 0 then
    (Errors.ProblemLengthNotMultipleOfAttributes, some c, some ls)
  else if fs.length / svm.num_attributes > c.max_problems then
    (Errors.ProblemPoolTooSmall, some c, some ls)
  else if fs.length / svm.num_attributes ≠ ls.length then
    (Errors.LabelLengthDoesNotEqualProblems, some c, some ls)
  else
    (Errors.Ok,
     some { c with problems := (problemsAfter (svmPredict svm) svm.num_attributes
         (fs.length / svm.num_attributes) fs c.problems) },
     some ((List.range (fs.length / svm.num_attributes)).map fun i =>
       ((problemsAfter (svmPredict svm) svm.num_attributes
           (fs.length / svm.num_attributes) fs c.problems).getD i ⟨[], 0⟩).label))

/-- Function `ffsvm_predict_values` from src/ffi.rs: null checks, the no-model check,
then `predictStep`.  The prediction function of the loaded SVM is passed in
as `svmPredict` since csvm.rs is not under src. -/
def ffsvm_predict_values (svmPredict : SVM → List ℝ → ℕ)
    (ctx : Option Context) (features : Option (List ℝ)) (labels : Option (List ℕ)) :
    Int × Option Context × Option (List ℕ) :=
  match ctx, features, labels with
  | some c, some fs, some ls =>
    match c.model with
    | none => (Errors.SVMNoModel, some c, some ls)
    | some svm => predictStep svmPredict svm c fs ls
  | _, _, _ => (Errors.NullPointerPassed, ctx, labels)

theorem ffsvm_predict_values_model (svmPredict : SVM → List ℝ → ℕ)
    (c : Context) (svm : SVM) (fs : List ℝ) (ls : List ℕ)
    (hm : c.model = some svm) :
    ffsvm_predict_values svmPredict (some c) (some fs) (some ls)
      = predictStep svmPredict svm c fs ls := by
  obtain ⟨mp, mo, pr⟩ := c
  simp only [Context.model] at hm
  subst hm
  rfl

theorem ffsvm_predict_values_nomodel (svmPredict : SVM → List ℝ → ℕ)
    (c : Context) (fs : List ℝ) (ls : List ℕ) (hm : c.model = none) :
    ffsvm_predict_values svmPredict (some c) (some fs) (some ls)
      = (Errors.SVMNoModel, some c, some ls) := by
  obtain ⟨mp, mo, pr⟩ := c
  simp only [Context.model] at hm
  subst hm
  rfl

/-- Function `ffsvm_set_max_problems` from src/ffi.rs. -/
def ffsvm_set_max_problems (ctx : Option Context) (n : ℕ) : Int × Option Context :=
  match ctx with
  | none => (Errors.NullPointerPassed, none)
  | some c =>
    match c.model with
    | none => (Errors.Ok, some { c with max_problems := n })
    | some _ => (Errors.SVMModelAlreadyLoaded, some c)

/-- The final stage of `ffsvm_load_model`, given the outcome of
`RbfCSVM::try_from`: on failure report SVMCreationError; on success rebuild
the problem pool (`(0..max_problems).map(|_| Problem::from(&svm))`) and
install the model. -/
def loadBuilt (problemFrom : SVM → CProblem) (c : Context)
    (b : Option SVM) : Int × Option Context :=
  match b with
  | none => (Errors.SVMCreationError, some c)
  | some svm =>
    (Errors.Ok, some { c with
      problems := (List.range c.max_problems).map (fun _ => problemFrom svm)
      model := some svm })

/-- The parse stage of `ffsvm_load_model`, given the outcome of
`ModelFile::try_from`. -/
def loadParsed {RawModel : Type} (build : RawModel → Option SVM)
    (problemFrom : SVM → CProblem)
    (c : Context) (r : Option RawModel) : Int × Option Context :=
  match r with
  | none => (Errors.ModelParseError, some c)
  | some raw => loadBuilt problemFrom c (build raw)

/-- The UTF-8 stage of `ffsvm_load_model`, given the outcome of
`CStr::to_str`. -/
def loadDecoded {RawModel : Type} (parseModel : String → Option RawModel)
    (build : RawModel → Option SVM) (problemFrom : SVM → CProblem)
    (c : Context) (s : Option String) : Int × Option Context :=
  match s with
  | none => (Errors.NoValidUTF8, some c)
  | some str => loadParsed build problemFrom c (parseModel str)

/-- Function `ffsvm_load_model` from src/ffi.rs.  The external collaborators that are
not under src are passed in abstractly: `decode` models `CStr::to_str`
(UTF-8 validation), `parseModel` models `ModelFile::try_from`, `build`
models `RbfCSVM::try_from`, and `problemFrom` models `Problem::from(&svm)`. -/
def ffsvm_load_model {CStr RawModel : Type}
    (decode : CStr → Option String) (parseModel : String → Option RawModel)
    (build : RawModel → Option SVM) (problemFrom : SVM → CProblem)
    (ctx : Option Context) (modelStr : Option CStr) : Int × Option Context :=
  match ctx, modelStr with
  | some c, some cs => loadDecoded parseModel build problemFrom c (decode cs)
  | _, _ => (Errors.NullPointerPassed, ctx)

theorem range_map_getD {α : Type} (n i : ℕ) (f : ℕ → α) (d : α) (h : i < n) :
    ((List.range n).map f).getD i d = f i := by
  rw [List.getD_eq_getElem _ _ (by simpa using h)]
  simp

theorem writeFeatures_getD (d np : ℕ) (fs : List ℝ) (probs : List CProblem)
    (i : ℕ) (h1 : i < np) (h2 : i < probs.length) :
    (writeFeatures d np fs probs).getD i ⟨[], 0⟩
      = { probs.getD i ⟨[], 0⟩ with
          features := (fs.drop (i * d)).take d
            ++ (probs.getD i ⟨[], 0⟩).features.drop d } := by
  rw [writeFeatures, range_map_getD _ _ _ _ h2]
  simp [h1]

theorem predictSlice_getD (svmPredict : List ℝ → ℕ) (d np : ℕ)
    (probs : List CProblem) (i : ℕ) (h1 : i < np) (h2 : i < probs.length) :
    (predictSlice svmPredict d np probs).getD i ⟨[], 0⟩
      = { probs.getD i ⟨[], 0⟩ with
          label := svmPredict ((probs.getD i ⟨[], 0⟩).features.take d) } := by
  rw [predictSlice, range_map_getD _ _ _ _ h2]
  simp [h1]

theorem writeFeatures_length (d np : ℕ) (fs : List ℝ) (probs : List CProblem) :
    (writeFeatures d np fs probs).length = probs.length := by
  simp [writeFeatures]

theorem take_block (d i : ℕ) (fs : List ℝ) (rest : List ℝ)
    (hfit : (i + 1) * d ≤ fs.length) :
    ((fs.drop (i * d)).take d ++ rest).take d = (fs.drop (i * d)).take d := by
  have hblk : ((fs.drop (i * d)).take d).length = d := by
    have hd : (i + 1) * d = i * d + d := by ring
    rw [List.length_take, List.length_drop]
    omega
  rw [List.take_append_eq_append_take, hblk]
  simp [List.take_take]

/-- C7: ffsvm_predict_values returns -1 on a null context, features or labels
pointer, -31 with no model loaded, -41 when the feature count is not a
multiple of num_attributes, -40 when the number of problems exceeds the pool
size, -42 when the label count differs from the number of problems, and 0 on
success with labels[0..num_problems] holding the predicted labels of the
corresponding feature blocks. -/
theorem ffsvm_predict_values_spec (svmPredict : SVM → List ℝ → ℕ)
    (c : Context) (fs : List ℝ) (ls : List ℕ) :
    (ffsvm_predict_values svmPredict none (some fs) (some ls)).1 = -1
    ∧ (ffsvm_predict_values svmPredict (some c) none (some ls)).1 = -1
    ∧ (ffsvm_predict_values svmPredict (some c) (some fs) none).1 = -1
    ∧ (c.model = none →
        (ffsvm_predict_values svmPredict (some c) (some fs) (some ls)).1 = -31)
    ∧ ∀ svm, c.model = some svm →
        ((¬ svm.num_attributes ∣ fs.length →
            (ffsvm_predict_values svmPredict (some c) (some fs) (some ls)).1 = -41)
        ∧ (svm.num_attributes ∣ fs.length →
            c.max_problems < fs.length / svm.num_attributes →
            (ffsvm_predict_values svmPredict (some c) (some fs) (some ls)).1 = -40)
        ∧ (svm.num_attributes ∣ fs.length →
            fs.length / svm.num_attributes ≤ c.max_problems →
            ls.length ≠ fs.length / svm.num_attributes →
            (ffsvm_predict_values svmPredict (some c) (some fs) (some ls)).1 = -42)
        ∧ (svm.num_attributes ∣ fs.length →
            fs.length / svm.num_attributes ≤ c.max_problems →
            ls.length = fs.length / svm.num_attributes →
            c.problems.length = c.max_problems →
            (ffsvm_predict_values svmPredict (some c) (some fs) (some ls)).1 = 0
            ∧ ∃ out,
                (ffsvm_predict_values svmPredict (some c) (some fs) (some ls)).2.2
                  = some out
                ∧ out.length = fs.length / svm.num_attributes
                ∧ ∀ i, i < fs.length / svm.num_attributes →
                    out.getD i 0 = svmPredict svm
                      ((fs.drop (i * svm.num_attributes)).take svm.num_attributes))) := by
  refine ⟨rfl, rfl, rfl, ?_, ?_⟩
  · intro h
    rw [ffsvm_predict_values_nomodel _ _ _ _ h]
    rfl
  · intro svm hm
    rw [ffsvm_predict_values_model _ _ _ _ _ hm]
    refine ⟨?_, ?_, ?_, ?_⟩
    · intro hdvd
      have hmod : fs.length % svm.num_attributes ≠ 0 :=
        fun hz => hdvd (Nat.dvd_of_mod_eq_zero hz)
      simp only [predictStep]
      rw [if_pos hmod]
      rfl
    · intro hdvd hgt
      have hmod : ¬ fs.length % svm.num_attributes ≠ 0 :=
        fun hk => hk (Nat.mod_eq_zero_of_dvd hdvd)
      simp only [predictStep]
      rw [if_neg hmod, if_pos hgt]
      rfl
    · intro hdvd hle hne
      have hmod : ¬ fs.length % svm.num_attributes ≠ 0 :=
        fun hk => hk (Nat.mod_eq_zero_of_dvd hdvd)
      simp only [predictStep]
      rw [if_neg hmod, if_neg (by omega), if_pos (Ne.symm hne)]
      rfl
    · intro hdvd hle hlen hpool
      have hmod : ¬ fs.length % svm.num_attributes ≠ 0 :=
        fun hk => hk (Nat.mod_eq_zero_of_dvd hdvd)
      simp only [predictStep]
      rw [if_neg hmod, if_neg (by omega), if_neg (by omega)]
      refine ⟨rfl, _, rfl, by simp, ?_⟩
      intro i hi
      have hipr : i < c.problems.length := by omega
      have hiw : i < (writeFeatures svm.num_attributes
          (fs.length / svm.num_attributes) fs c.problems).length := by
        rw [writeFeatures_length]
        exact hipr
      have hfit : (i + 1) * svm.num_attributes ≤ fs.length := by
        have h1 : fs.length / svm.num_attributes * svm.num_attributes = fs.length :=
          Nat.div_mul_cancel hdvd
        have h2 : (i + 1) * svm.num_attributes
            ≤ fs.length / svm.num_attributes * svm.num_attributes :=
          Nat.mul_le_mul_right _ (by omega)
        omega
      rw [range_map_getD _ _ _ _ hi]
      simp only [problemsAfter, predictSlice_getD _ _ _ _ _ hi hiw,
        writeFeatures_getD _ _ _ _ _ hi hipr,
        take_block _ _ _ _ hfit]

/-- Closed instance of the C7 theorem: a 2-attribute model, two feature
blocks, pool of two problems; the output labels are the predictions of the
two blocks. -/
theorem ffsvm_predict_values_spec_w :
    (ffsvm_predict_values (fun _ b => b.length)
        (some ⟨2, some ⟨2, []⟩, [⟨[0, 0], 0⟩, ⟨[0, 0], 0⟩]⟩)
        (some [1, 2, 3, 4]) (some [0, 0])).1 = 0
    ∧ ∃ out,
        (ffsvm_predict_values (fun _ b => b.length)
            (some ⟨2, some ⟨2, []⟩, [⟨[0, 0], 0⟩, ⟨[0, 0], 0⟩]⟩)
            (some [1, 2, 3, 4]) (some [0, 0])).2.2 = some out
        ∧ out.length = [(1 : ℝ), 2, 3, 4].length / (2 : ℕ)
        ∧ ∀ i, i < [(1 : ℝ), 2, 3, 4].length / (2 : ℕ) →
            out.getD i 0 = (fun (_ : SVM) (b : List ℝ) => b.length) ⟨2, []⟩
              (([(1 : ℝ), 2, 3, 4].drop (i * 2)).take 2) :=
  ((ffsvm_predict_values_spec (fun _ b => b.length)
      ⟨2, some ⟨2, []⟩, [⟨[0, 0], 0⟩, ⟨[0, 0], 0⟩]⟩ [1, 2, 3, 4] [0, 0]).2.2.2.2
    ⟨2, []⟩ rfl).2.2.2 (by decide) (by decide) (by decide) (by decide)

/-- C8: ffsvm_set_max_problems returns -1 on a null context; with a model
already loaded it returns -32 and leaves the context (hence the configured
pool size) unchanged; with no model loaded it sets max_problems and
returns 0. -/
theorem ffsvm_set_max_problems_spec (c : Context) (n : ℕ) :
    ffsvm_set_max_problems none n = (-1, none)
    ∧ (c.model = none →
        ffsvm_set_max_problems (some c) n = (0, some { c with max_problems := n }))
    ∧ (∀ svm, c.model = some svm →
        ffsvm_set_max_problems (some c) n = (-32, some c)) := by
  obtain ⟨mp, mo, pr⟩ := c
  refine ⟨rfl, ?_, ?_⟩
  · intro h
    simp only [Context.model] at h
    subst h
    rfl
  · intro svm h
    simp only [Context.model] at h
    subst h
    rfl

/-- Closed instance of the C8 theorem: setting the pool size on a fresh
context succeeds, and on a loaded context it is rejected unchanged. -/
theorem ffsvm_set_max_problems_spec_w :
    ffsvm_set_max_problems (some ⟨1, none, []⟩) 5 = (0, some ⟨5, none, []⟩)
    ∧ ffsvm_set_max_problems (some ⟨1, some ⟨2, []⟩, []⟩) 5
        = (-32, some ⟨1, some ⟨2, []⟩, []⟩) :=
  ⟨(ffsvm_set_max_problems_spec ⟨1, none, []⟩ 5).2.1 rfl,
   (ffsvm_set_max_problems_spec ⟨1, some ⟨2, []⟩, []⟩ 5).2.2 ⟨2, []⟩ rfl⟩

/-- C9: ffsvm_load_model is atomic on failure: any nonzero return leaves the
context exactly as it was; a zero return means the whole decode, parse and
build pipeline succeeded, the model was replaced, and the problem pool was
rebuilt to exactly max_problems freshly constructed problems. -/
theorem ffsvm_load_model_atomic {CStr RawModel : Type}
    (decode : CStr → Option String) (parseModel : String → Option RawModel)
    (build : RawModel → Option SVM) (problemFrom : SVM → CProblem)
    (ctx : Option Context) (m : Option CStr) :
    ((ffsvm_load_model decode parseModel build problemFrom ctx m).1 ≠ 0 →
        (ffsvm_load_model decode parseModel build problemFrom ctx m).2 = ctx)
    ∧ (∀ c, ctx = some c →
        (ffsvm_load_model decode parseModel build problemFrom ctx m).1 = 0 →
        ∃ svm, (ffsvm_load_model decode parseModel build problemFrom ctx m).2
          = some { c with
              model := some svm
              problems := List.replicate c.max_problems (problemFrom svm) }) := by
  have hrep : ∀ (n : ℕ) (p : CProblem),
      (List.range n).map (fun _ => p) = List.replicate n p := by
    intro n p
    simp
  constructor
  · match ctx, m with
    | none, _ =>
      intro _
      rfl
    | some c, none =>
      intro _
      rfl
    | some c, some cs =>
      show (loadDecoded parseModel build problemFrom c (decode cs)).1 ≠ 0 →
        (loadDecoded parseModel build problemFrom c (decode cs)).2 = some c
      cases hd : decode cs with
      | none =>
        intro _
        rfl
      | some s =>
        show (loadParsed build problemFrom c (parseModel s)).1 ≠ 0 →
          (loadParsed build problemFrom c (parseModel s)).2 = some c
        cases hp : parseModel s with
        | none =>
          intro _
          rfl
        | some raw =>
          show (loadBuilt problemFrom c (build raw)).1 ≠ 0 →
            (loadBuilt problemFrom c (build raw)).2 = some c
          cases hb : build raw with
          | none =>
            intro _
            rfl
          | some svm =>
            intro hne
            exact absurd rfl hne
  · intro c hc h0
    subst hc
    match m with
    | none =>
      change (-1 : Int) = 0 at h0
      exact absurd h0 (by decide)
    | some cs =>
      change (loadDecoded parseModel build problemFrom c (decode cs)).1 = 0 at h0
      show ∃ svm, (loadDecoded parseModel build problemFrom c (decode cs)).2
        = some { c with
            model := some svm
            problems := List.replicate c.max_problems (problemFrom svm) }
      cases hd : decode cs with
      | none =>
        rw [hd] at h0
        change (-2 : Int) = 0 at h0
        exact absurd h0 (by decide)
      | some s =>
        rw [hd] at h0
        simp only [loadDecoded] at h0 ⊢
        cases hp : parseModel s with
        | none =>
          rw [hp] at h0
          change (-20 : Int) = 0 at h0
          exact absurd h0 (by decide)
        | some raw =>
          rw [hp] at h0
          simp only [loadParsed] at h0 ⊢
          cases hb : build raw with
          | none =>
            rw [hb] at h0
            change (-30 : Int) = 0 at h0
            exact absurd h0 (by decide)
          | some svm =>
            simp only [loadBuilt]
            refine ⟨svm, ?_⟩
            rw [hrep]

/-- Closed instance of the C9 theorem: a successful pipeline rebuilds the
pool to max_problems fresh problems and installs the model. -/
theorem ffsvm_load_model_atomic_w :
    ∃ svm, (ffsvm_load_model (fun _ : ℕ => some "m") (fun _ => some (0 : ℕ))
        (fun _ => some (SVM.mk 1 [])) (fun _ => CProblem.mk [] 0)
        (some (Context.mk 2 none [])) (some 0)).2
      = some (Context.mk 2 (some svm) (List.replicate 2 (CProblem.mk [] 0))) :=
  (ffsvm_load_model_atomic (fun _ : ℕ => some "m") (fun _ => some (0 : ℕ))
      (fun _ => some (SVM.mk 1 [])) (fun _ => CProblem.mk [] 0)
      (some (Context.mk 2 none [])) (some 0)).2
    (Context.mk 2 none []) rfl rfl

end FfSvm
